import Mathlib

/-!
Verification of the retrieval subsystem of the repo-explainer application:
chunking (`chunk_by_lines`), file selection (`collect_code_files` /
`should_ignore`), index building (`build_faiss_index`), retrieval
(`retrieve`), citation formatting (`format_citations`) and the Ask-question
handler routing, shallowly embedded from `src/indexer.py`,
`src/file_filter.py`, `src/rag.py` and `app.py`.
-/

namespace RepoExplainer

/-! ### Python string primitives, modelled over `String.data` -/

/-- Helper for `pySplitlines`: one pass over the characters, accumulating the
current (reversed) line; recognises `\r\n`, `\r` and `\n` breaks like Python's
`str.splitlines`, and drops the segment after the final break. -/
def splitlinesAux : List Char → List Char → List String
  | [], cur => if cur = [] then [] else [⟨cur.reverse⟩]
  | '\r' :: '\n' :: rest, cur => ⟨cur.reverse⟩ :: splitlinesAux rest []
  | '\r' :: rest, cur => ⟨cur.reverse⟩ :: splitlinesAux rest []
  | '\n' :: rest, cur => ⟨cur.reverse⟩ :: splitlinesAux rest []
  | c :: rest, cur => splitlinesAux rest (c :: cur)

/-- Python `text.splitlines()`. -/
def pySplitlines (s : String) : List String :=
  splitlinesAux s.data []

/-- Python `s.strip()`: remove leading and trailing whitespace. -/
def pyStrip (s : String) : String :=
  ⟨((s.data.dropWhile Char.isWhitespace).reverse.dropWhile Char.isWhitespace).reverse⟩

/-- Python `s[:n]` for a nonnegative bound. -/
def pyTake (n : Nat) (s : String) : String :=
  ⟨s.data.take n⟩

/-- Python `s.lower()` (character-wise lowercasing). -/
def pyLower (s : String) : String :=
  ⟨s.data.map Char.toLower⟩

/-- Python `sep.join(xs)`. -/
def joinSep (sep : String) : List String → String
  | [] => ""
  | [s] => s
  | s :: rest => s ++ sep ++ joinSep sep rest

/-- Character lists: does `pat` match the beginning of the second list? -/
def firstMatches : List Char → List Char → Bool
  | [], _ => true
  | _ :: _, [] => false
  | a :: as, b :: bs => a == b && firstMatches as bs

/-- Character lists: does `pat` occur contiguously inside the second list? -/
def hasSubChars (pat : List Char) : List Char → Bool
  | [] => pat.isEmpty
  | c :: rest => firstMatches pat (c :: rest) || hasSubChars pat rest

/-- Python `sub in s`. -/
def pyContains (s sub : String) : Bool :=
  hasSubChars sub.data s.data

/-- Python `s.endswith(suf)`. -/
def pyEndsWith (s suf : String) : Bool :=
  firstMatches suf.data.reverse s.data.reverse

/-- A string containing at least one non-whitespace character (a "non-blank"
line in the sense of the spec). -/
def Nonblank (s : String) : Prop :=
  ∃ c ∈ s.data, c.isWhitespace = false

/-- `sub` occurs contiguously in `s` (the propositional reading of
Python's `sub in s`). -/
def ContainsSub (s sub : String) : Prop :=
  ∃ a b, s.data = a ++ sub.data ++ b

/-! ### Chunker (`chunk_by_lines`, src/indexer.py lines 30-46)

The Python `while` loop is embedded as a fuel-indexed loop `chunkLoop`; a
`none` result means the loop did not finish within the given fuel.  The
cursor update `i = end - overlap; if i < 0: i = 0` is exactly truncated
natural subtraction `end - overlap`. -/

def chunkLoop (w o : Nat) (lines : List String) :
    Nat → Nat → List (Nat × Nat × String) → Option (List (Nat × Nat × String))
  | 0, _, _ => none
  | fuel + 1, i, acc =>
    if i < lines.length then
      let e := min (i + w) lines.length
      let ctext := pyStrip (joinSep "\n" ((lines.drop i).take (e - i)))
      let acc2 := if ctext = "" then acc else acc ++ [(i + 1, e, ctext)]
      if e = lines.length then some acc2
      else chunkLoop w o lines fuel (e - o) acc2
    else some acc

/-- `chunk_by_lines(text, lines_per_chunk, overlap)` run with fuel
`lines.length + 1`, which suffices whenever `overlap < lines_per_chunk`
(see `chunkLoop_total`); `none` models divergence of the source loop. -/
def chunk_by_lines (text : String) (lines_per_chunk : Nat := 200) (overlap : Nat := 30) :
    Option (List (Nat × Nat × String)) :=
  let lines := pySplitlines text
  chunkLoop lines_per_chunk overlap lines (lines.length + 1) 0 []

/-- The source loop terminates on `text` for window `w` and overlap `o`:
some finite fuel makes `chunkLoop` return. -/
def ChunkTerminates (text : String) (w o : Nat) : Prop :=
  ∃ fuel r, chunkLoop w o (pySplitlines text) fuel 0 [] = some r

/-- The coverage property claimed by the spec for a chunking result over `n`
lines: every line `1..n` lies in some chunk's `[start_line, end_line]` range,
and the final emitted chunk's `end_line` is `n`. -/
def ChunkCoverage (n : Nat) (res : List (Nat × Nat × String)) : Prop :=
  (∀ j, 1 ≤ j → j ≤ n → ∃ t ∈ res, t.1 ≤ j ∧ j ≤ t.2.1) ∧
  ∃ pre c, res = pre ++ [c] ∧ c.2.1 = n

example : pySplitlines "a\nb" = ["a", "b"] := by decide
example : pySplitlines "a\n" = ["a"] := by decide
example : pySplitlines "" = [] := by decide
example : pySplitlines "\n\n\n" = ["", "", ""] := by decide
example : pyStrip "  hi \n" = "hi" := by decide
example : chunk_by_lines "hello" = some [(1, 1, "hello")] := by decide
example : chunk_by_lines "\n\n\n" = some [] := by decide
example : chunk_by_lines "a\nb\nc" 2 1 = some [(1, 2, "a\nb"), (2, 3, "b\nc")] := by decide

/-! ### File selector (`should_ignore`, src/file_filter.py; `collect_code_files`,
src/indexer.py lines 49-64) -/

def IGNORE_EXTENSIONS : List String :=
  [".png", ".jpg", ".jpeg", ".gif", ".webp", ".svg", ".ico",
   ".exe", ".dll", ".so", ".bin",
   ".zip", ".tar", ".gz", ".7z",
   ".pdf", ".lock"]

def IGNORE_FOLDERS : List String :=
  [".git", "node_modules", "dist", "build", ".venv", "__pycache__",
   ".idea", ".vscode", ".next", "out", "public"]

/-- `should_ignore(name)`: exact folder-name match, then case-insensitive
extension suffix match. -/
def should_ignore (name : String) : Bool :=
  if name ∈ IGNORE_FOLDERS then true
  else IGNORE_EXTENSIONS.any (fun ext => pyEndsWith (pyLower name) ext)

/-- A directory tree: the `os.walk` surface that `collect_code_files`
traverses.  Files carry their `os.path.getsize` result. -/
inductive FSTree where
  | file (name : String) (size : Nat)
  | dir (name : String) (children : List FSTree)
deriving Repr

/-- The traversal of `collect_code_files`: directories whose name satisfies
`should_ignore` are pruned before descent (`dirs[:] = [d for d in dirs if not
should_ignore(d)]`), files are dropped when `should_ignore(f)` holds or the
size exceeds 2MB, and paths are joined with `/`. -/
def collectFrom (path : String) : List FSTree → List String
  | [] => []
  | .file name size :: rest =>
    (if should_ignore name then []
     else if size > 2000000 then []
     else [path ++ "/" ++ name]) ++ collectFrom path rest
  | .dir name children :: rest =>
    (if should_ignore name then []
     else collectFrom (path ++ "/" ++ name) children) ++ collectFrom path rest

/-- `collect_code_files(repo_path)` over an explicit directory tree. -/
def collect_code_files (repo_path : String) (tree : List FSTree) : List String :=
  collectFrom repo_path tree

/-- The path of a file reached from `root` through the directory names `ds`. -/
def joinPath (root : String) : List String → String
  | [] => root
  | d :: ds => joinPath (root ++ "/" ++ d) ds

/-! ### Index build (`build_faiss_index`, src/indexer.py lines 67-92) and
retrieval (`retrieve`, src/rag.py lines 9-21)

The sentence-embedding model is an opaque capability `embed : String → E`;
the FAISS flat index stores the embedded vectors in insertion order and its
`search` is exact top-`k` selection by a similarity `sim` (inner product on
normalized vectors in the source), padding with the `-1` sentinel when the
index holds fewer than `k` vectors. -/

structure ChunkMeta where
  file_path : String
  start_line : Nat
  end_line : Nat
  text : String
deriving DecidableEq, Repr

def defaultMeta : ChunkMeta := ⟨"", 0, 0, ""⟩

structure FaissIndex (E : Type) where
  vectors : List E
deriving DecidableEq, Repr

/-- One file's contribution to the `(metas, texts)` accumulation in
`build_faiss_index`: skip files whose (truncated) text strips to empty,
otherwise append one `ChunkMeta` and one text per chunk, in order.
`read_text_file`'s 200000-character truncation is `pyTake 200000`. -/
def buildStep (acc : List ChunkMeta × List String) (f : String × String) :
    List ChunkMeta × List String :=
  let txt := pyTake 200000 f.2
  if pyStrip txt = "" then acc
  else
    let cs := (chunk_by_lines txt).getD []
    (acc.1 ++ cs.map (fun t => ⟨f.1, t.1, t.2.1, t.2.2⟩),
     acc.2 ++ cs.map (fun t => t.2.2))

/-- The `(metas, texts)` pair accumulated over all collected files (each file
given as `(path, content)`). -/
def buildCorpus (files : List (String × String)) : List ChunkMeta × List String :=
  files.foldl buildStep ([], [])

def emptyCorpusMsg : String :=
  "No indexable text found in repo (maybe only binaries or ignored files)."

/-- `build_faiss_index`: raise (`Except.error`) on an empty corpus, otherwise
return the index holding one embedding per chunk text, in order, together
with the aligned metadata list. -/
def build_faiss_index {E : Type} (embed : String → E) (files : List (String × String)) :
    Except String (FaissIndex E × List ChunkMeta) :=
  let r := buildCorpus files
  if r.2 = [] then .error emptyCorpusMsg
  else .ok (⟨r.2.map embed⟩, r.1)

/-- The similarity score of stored vector `i` against query vector `qv`
(`0` when `i` is out of range, which exact search never produces). -/
def scoreAt {E : Type} (sim : E → E → Int) (vecs : List E) (qv : E) (i : Nat) : Int :=
  ((vecs.get? i).map (sim qv)).getD 0

/-- `index.search(q_emb, k)` of a FAISS flat index: the stored positions
sorted by descending score, truncated to `min k ntotal`, padded with the
`-1` sentinel up to length `k`. -/
def faissSearch {E : Type} (sim : E → E → Int) (idx : FaissIndex E) (qv : E) (k : Nat) :
    List Int :=
  let n := idx.vectors.length
  let order := List.insertionSort
    (fun a b => scoreAt sim idx.vectors qv b ≤ scoreAt sim idx.vectors qv a) (List.range n)
  (order.take (min k n)).map Int.ofNat ++ List.replicate (k - n) (-1)

/-- `retrieve(question, index, metas, model, top_k)`: embed the query, search,
then walk the returned ids skipping the `-1` sentinel and looking metadata up
by position. -/
def retrieve {E : Type} (embed : String → E) (sim : E → E → Int) (question : String)
    (idx : FaissIndex E) (metas : List ChunkMeta) (top_k : Nat := 6) : List ChunkMeta :=
  let qv := embed question
  let ids := faissSearch sim idx qv top_k
  ids.foldl (fun results i => if i = -1 then results
                              else results ++ [metas.getD i.toNat defaultMeta]) []

/-! ### Citation formatting (`format_citations`, src/rag.py lines 24-38) and
the local answer template -/

/-- The display string of one chunk: `"{rel} (lines {start}-{end})"` where
`rel = os.path.relpath(file_path, repo_root)`; `relpath` is an OS capability
passed in explicitly. -/
def displayCitation (relpath : String → String → String) (repo_root : String)
    (c : ChunkMeta) : String :=
  relpath c.file_path repo_root ++ " (lines " ++ toString c.start_line ++ "-" ++
    toString c.end_line ++ ")"

/-- The `seen`-set deduplication loop of `format_citations` (the Python set is
modelled as the list of strings seen so far). -/
def dedupeAux : List String → List String → List String → List String
  | [], _, unique => unique
  | c :: rest, seen, unique =>
    if c ∈ seen then dedupeAux rest seen unique
    else dedupeAux rest (c :: seen) (unique ++ [c])

def format_citations (relpath : String → String → String) (chunks : List ChunkMeta)
    (repo_root : String) : List String :=
  let citations := chunks.map (displayCitation relpath repo_root)
  dedupeAux citations [] []

/-- Modelled from the spec: stable first-occurrence deduplication — keep each
distinct string at the position of its first occurrence in the input order. -/
def firstOcc : List String → List String
  | [] => []
  | x :: xs => x :: (firstOcc xs).filter (fun y => y ≠ x)

/-- `basic_answer(question, chunks)` (src/rag.py): the no-LLM fallback
template over the 1200-character-truncated chunk texts. -/
def basic_answer (question : String) (chunks : List ChunkMeta) : String :=
  let context := joinSep "\n\n---\n\n" (chunks.map (fun c => pyTake 1200 c.text))
  "\nMVP LOCAL ANSWER (no external LLM):\n\nQuestion: " ++ question ++
    "\n\nRelevant code snippets:\n\n" ++ context ++ "\n"

/-! ### The Ask-question handler (app.py lines 222-264)

`detect_entrypoints` is an external collaborator; its output is the
`EntryInfo` record.  The remote LLM call is an opaque capability `llm`.
The handler calls `retrieve` unconditionally before branching on the
question class; `retrieve_called` records that call site. -/

structure EntryInfo where
  framework : String
  entry_files : List String
  run_commands : List String
  notes : List String
deriving DecidableEq, Repr

/-- The `answer_lines` assembly of the entry-point branch of the handler. -/
def detectorAnswer (info : EntryInfo) : String :=
  let l1 := ["Framework: " ++ info.framework, "Entry files:"]
  let l2 := if info.entry_files = [] then ["- (none detected)"]
            else info.entry_files.map (fun f => "- " ++ f)
  let l3 := if info.run_commands = [] then []
            else "Run commands:" :: info.run_commands.map (fun c => "- " ++ c)
  let l4 := if info.notes = [] then []
            else "Notes:" :: info.notes.map (fun n => "- " ++ n)
  joinSep "\n" (l1 ++ l2 ++ l3 ++ l4)

structure AskOutcome where
  retrieve_called : Bool
  used_detector : Bool
  answer : String
  citations : List String
deriving DecidableEq, Repr

/-- The Ask button handler for a non-empty question on a built index:
`retrieve` and `format_citations` run first, then the question is routed on
substring tests over `q.lower()`. -/
def ask_handler {E : Type} (embed : String → E) (sim : E → E → Int)
    (relpath : String → String → String) (llm : String → List ChunkMeta → String → String)
    (api_key : String) (q : String) (idx : FaissIndex E) (metas : List ChunkMeta)
    (repo_root : String) (info : EntryInfo) : AskOutcome :=
  let chunks := retrieve embed sim q idx metas 6
  let cites := format_citations relpath chunks repo_root
  let ql := pyLower q
  if pyContains ql "entry point" || pyContains ql "main file" || pyContains ql "start" then
    { retrieve_called := true
      used_detector := true
      answer := detectorAnswer info
      citations := if info.entry_files = [] then cites else info.entry_files }
  else
    { retrieve_called := true
      used_detector := false
      answer := if pyStrip api_key = "" then basic_answer q chunks
                else llm q chunks api_key
      citations := cites }

example : should_ignore "node_modules" = true := by decide
example : should_ignore "LOGO.PNG" = true := by decide
example : should_ignore "main.py" = false := by decide
example : collect_code_files "r" [.dir "src" [.file "a.py" 10], .dir "out" [.file "b.py" 1]]
    = ["r/src/a.py"] := by simp +decide [collect_code_files, collectFrom]
example : format_citations (fun p _ => p)
    [⟨"a", 1, 2, ""⟩, ⟨"b", 1, 2, ""⟩, ⟨"a", 1, 2, ""⟩] "r"
    = ["a (lines 1-2)", "b (lines 1-2)"] := by decide

/-! ### Lemmas about the string primitives -/

lemma all_of_dropWhile_nil {α : Type} {p : α → Bool} :
    ∀ {l : List α}, l.dropWhile p = [] → ∀ c ∈ l, p c = true := by
  intro l
  induction l with
  | nil => intro _ c hc; cases hc
  | cons a as ih =>
    intro h c hc
    rw [List.dropWhile_cons] at h
    by_cases hpa : p a
    · rw [if_pos hpa] at h
      rcases List.mem_cons.mp hc with hc | hc
      · rw [hc]; exact hpa
      · exact ih h c hc
    · rw [if_neg hpa] at h
      cases h

lemma all_of_mem_takeWhile {α : Type} {p : α → Bool} :
    ∀ {l : List α}, ∀ c ∈ l.takeWhile p, p c = true := by
  intro l
  induction l with
  | nil => intro c hc; cases hc
  | cons a as ih =>
    intro c hc
    rw [List.takeWhile_cons] at hc
    by_cases hpa : p a
    · rw [if_pos hpa] at hc
      rcases List.mem_cons.mp hc with hc | hc
      · rw [hc]; exact hpa
      · exact ih c hc
    · rw [if_neg hpa] at hc
      cases hc

/-- If `pyStrip s` is empty then every character of `s` is whitespace. -/
lemma pyStrip_eq_empty {s : String} (h : pyStrip s = "") :
    ∀ c ∈ s.data, c.isWhitespace = true := by
  intro c hc
  have hd : ((s.data.dropWhile Char.isWhitespace).reverse.dropWhile
      Char.isWhitespace).reverse = [] := congrArg String.data h
  rw [List.reverse_eq_nil_iff] at hd
  have hall : ∀ x ∈ (s.data.dropWhile Char.isWhitespace).reverse, x.isWhitespace = true :=
    all_of_dropWhile_nil hd
  have hdrop : ∀ x ∈ s.data.dropWhile Char.isWhitespace, x.isWhitespace = true := by
    intro x hx
    exact hall x (List.mem_reverse.mpr hx)
  have hsplit := List.takeWhile_append_dropWhile (p := Char.isWhitespace) (l := s.data)
  rw [← hsplit] at hc
  rcases List.mem_append.mp hc with hc | hc
  · exact all_of_mem_takeWhile c hc
  · exact hdrop c hc

/-- A character of an element of `ws` is a character of `joinSep sep ws`. -/
lemma mem_data_joinSep (sep : String) :
    ∀ (ws : List String) (s : String) (c : Char), s ∈ ws → c ∈ s.data →
      c ∈ (joinSep sep ws).data := by
  intro ws
  induction ws with
  | nil => intro s c hs _; cases hs
  | cons a rest ih =>
    intro s c hs hc
    cases rest with
    | nil =>
      rcases List.mem_cons.mp hs with hs | hs
      · rw [hs] at hc; exact hc
      · cases hs
    | cons b bs =>
      show c ∈ (a ++ sep ++ joinSep sep (b :: bs)).data
      rw [String.data_append, String.data_append]
      rcases List.mem_cons.mp hs with hs | hs
      · exact List.mem_append.mpr (Or.inl (List.mem_append.mpr (Or.inl (hs ▸ hc))))
      · exact List.mem_append.mpr (Or.inr (ih s c hs hc))

/-- A window taken from all-nonblank lines strips to a nonempty string. -/
lemma window_nonblank (L : List String) (hb : ∀ l ∈ L, Nonblank l) {w i : Nat}
    (hw : 0 < w) (hi : i < L.length) :
    pyStrip (joinSep "\n" ((L.drop i).take (min (i + w) L.length - i))) ≠ "" := by
  have hlen : 0 < ((L.drop i).take (min (i + w) L.length - i)).length := by
    rw [List.length_take, List.length_drop]
    have h1 : i + 1 ≤ min (i + w) L.length := le_min (by omega) (by omega)
    omega
  obtain ⟨l, hl⟩ := List.exists_mem_of_length_pos hlen
  have hlL : l ∈ L := List.drop_subset _ _ (List.take_subset _ _ hl)
  obtain ⟨c, hc, hcw⟩ := hb l hlL
  intro hstrip
  have := pyStrip_eq_empty hstrip c (mem_data_joinSep "\n" _ l c hl hc)
  rw [this] at hcw
  cases hcw

/-! ### Chunker lemmas: termination, divergence, coverage -/

/-- With `overlap < window`, the chunking loop finishes within
`L.length + 1 - i` iterations. -/
lemma chunkLoop_total {w o : Nat} (h : o < w) (L : List String) :
    ∀ fuel i acc, i ≤ L.length → L.length + 1 ≤ fuel + i →
      ∃ r, chunkLoop w o L fuel i acc = some r := by
  intro fuel
  induction fuel with
  | zero => intro i acc hi hb; omega
  | succ f ih =>
    intro i acc hi hb
    by_cases hin : i < L.length
    · simp only [chunkLoop]
      rw [if_pos hin]
      by_cases hend : min (i + w) L.length = L.length
      · rw [if_pos hend]
        exact ⟨_, rfl⟩
      · rw [if_neg hend]
        have hiw : i + w < L.length := by
          rcases Nat.lt_or_ge (i + w) L.length with h' | h'
          · exact h'
          · exact absurd (Nat.min_eq_right h') hend
        rw [Nat.min_eq_left (Nat.le_of_lt hiw)]
        exact ih (i + w - o) _ (by omega) (by omega)
    · exact ⟨acc, by simp only [chunkLoop]; rw [if_neg hin]⟩

/-- `chunk_by_lines` returns a result whenever `overlap < lines_per_chunk`. -/
lemma chunk_by_lines_some {w o : Nat} (h : o < w) (text : String) :
    ∃ r, chunk_by_lines text w o = some r := by
  unfold chunk_by_lines
  exact chunkLoop_total h _ _ 0 [] (Nat.zero_le _) (by omega)

/-- With `overlap ≥ window` the cursor never advances past `i`, so whenever
the window end stays short of the file end the loop never finishes. -/
lemma chunkLoop_stuck {w o : Nat} (how : w ≤ o) (L : List String) :
    ∀ fuel i acc, i + w < L.length → chunkLoop w o L fuel i acc = none := by
  intro fuel
  induction fuel with
  | zero => intro i acc _; rfl
  | succ f ih =>
    intro i acc hiw
    have hin : i < L.length := by omega
    simp only [chunkLoop]
    rw [if_pos hin]
    have hmin : min (i + w) L.length = i + w := Nat.min_eq_left (by omega)
    have hend : ¬ (min (i + w) L.length = L.length) := by omega
    rw [if_neg hend, hmin]
    exact ih (i + w - o) _ (by omega)

/-- Coverage invariant of the chunking loop when every line is non-blank:
starting at cursor `i < n`, the emitted tail of chunks covers all lines
`i+1 .. n` and its last chunk ends at `n`. -/
lemma chunkLoop_cov {w o : Nat} (hw : 0 < w) (L : List String)
    (hb : ∀ l ∈ L, Nonblank l) :
    ∀ fuel i acc res, chunkLoop w o L fuel i acc = some res → i < L.length →
      ∃ tail, res = acc ++ tail ∧
        (∀ j, i + 1 ≤ j → j ≤ L.length → ∃ t ∈ tail, t.1 ≤ j ∧ j ≤ t.2.1) ∧
        ∃ pre c, tail = pre ++ [c] ∧ c.2.1 = L.length := by
  intro fuel
  induction fuel with
  | zero => intro i acc res h _; cases h
  | succ f ih =>
    intro i acc res h hi
    simp only [chunkLoop] at h
    rw [if_pos hi] at h
    have hct := window_nonblank L hb hw hi
    rw [if_neg hct] at h
    have he1 : i + 1 ≤ min (i + w) L.length := le_min (by omega) (by omega)
    by_cases hend : min (i + w) L.length = L.length
    · rw [if_pos hend] at h
      refine ⟨[(i + 1, min (i + w) L.length,
        pyStrip (joinSep "\n" ((L.drop i).take (min (i + w) L.length - i))))],
        (Option.some.injEq _ _).mp h |>.symm, ?_, ?_⟩
      · intro j hj1 hj2
        exact ⟨_, List.mem_singleton_self _, by omega, by simp only []; omega⟩
      · exact ⟨[], _, rfl, hend⟩
    · rw [if_neg hend] at h
      have hlt : min (i + w) L.length < L.length :=
        Nat.lt_of_le_of_ne (Nat.min_le_right _ _) hend
      have hrec := ih (min (i + w) L.length - o) _ res h (by omega)
      obtain ⟨tail', hres, hcov, pre', c', htail', hcend⟩ := hrec
      refine ⟨(i + 1, min (i + w) L.length,
        pyStrip (joinSep "\n" ((L.drop i).take (min (i + w) L.length - i)))) :: tail',
        by rw [hres]; simp, ?_, ?_⟩
      · intro j hj1 hj2
        by_cases hje : j ≤ min (i + w) L.length
        · exact ⟨_, List.mem_cons_self _ _, by omega, by simp only []; omega⟩
        · obtain ⟨t, ht, ht1, ht2⟩ := hcov j (by omega) hj2
          exact ⟨t, List.mem_cons_of_mem _ ht, ht1, ht2⟩
      · refine ⟨(i + 1, min (i + w) L.length,
          pyStrip (joinSep "\n" ((L.drop i).take (min (i + w) L.length - i)))) :: pre',
          c', ?_, hcend⟩
        rw [htail']
        rfl

instance (s : String) : Decidable (Nonblank s) := by
  unfold Nonblank
  infer_instance

/-! ### Claim C2: termination of `chunk_by_lines` -/

/-- C2 counterexample: with window 2 and overlap 5 (overlap ≥ window) on a
3-line input, the chunking loop never returns, whatever the fuel: the claim
that `chunk_by_lines` terminates for every window/overlap configuration is
false. -/
theorem C2_termination_counterexample : ¬ ChunkTerminates "a\nb\nc" 2 5 := by
  rintro ⟨fuel, r, h⟩
  rw [chunkLoop_stuck (by omega) (pySplitlines "a\nb\nc") fuel 0 [] (by decide)] at h
  cases h

/-- C2 (amended): `chunk_by_lines` terminates on every input text whenever
`overlap < lines_per_chunk` (in particular at the default configuration
200/30 used by the index build); with `overlap ≥ lines_per_chunk` the loop
can run forever. -/
theorem C2_termination_amended (text : String) (w o : Nat) (h : o < w) :
    ChunkTerminates text w o ∧ ∃ r, chunk_by_lines text w o = some r := by
  obtain ⟨r, hr⟩ := chunkLoop_total h (pySplitlines text)
    ((pySplitlines text).length + 1) 0 [] (Nat.zero_le _) (by omega)
  exact ⟨⟨_, r, hr⟩, ⟨r, hr⟩⟩

theorem C2_termination_witness :
    (1 : Nat) < 2 ∧
    (ChunkTerminates "x\ny\nz" 2 1 ∧ ∃ r, chunk_by_lines "x\ny\nz" 2 1 = some r) :=
  ⟨by decide, C2_termination_amended "x\ny\nz" 2 1 (by decide)⟩

/-! ### Claim C3: line coverage of `chunk_by_lines` -/

/-- C3 counterexample: on an all-blank 3-line input the single window strips
to the empty string and is dropped, so no chunk is emitted: line 1 is inside
no chunk's range and there is no final chunk ending at the total line count. -/
theorem C3_coverage_counterexample :
    chunk_by_lines "\n\n\n" = some [] ∧ (pySplitlines "\n\n\n").length = 3 ∧
    ¬ ChunkCoverage 3 ([] : List (Nat × Nat × String)) := by
  refine ⟨by decide, by decide, ?_⟩
  rintro ⟨-, pre, c, h, -⟩
  have := congrArg List.length h
  simp at this

/-- C3 (amended): for every text with at least one line in which every line
is non-blank, `chunk_by_lines` (default 200/30 configuration) succeeds and
its chunks cover every line `1..n` of the input, with the final emitted
chunk's `end_line` equal to the total line count `n`.  (Lines lying in an
entirely-blank window are skipped by the code, hence the non-blank
hypothesis.) -/
theorem C3_coverage_amended (text : String) (hne : pySplitlines text ≠ [])
    (hb : ∀ l ∈ pySplitlines text, Nonblank l) :
    ∃ res, chunk_by_lines text = some res ∧
      ChunkCoverage (pySplitlines text).length res := by
  obtain ⟨r, hr⟩ := chunkLoop_total (by omega : (30 : Nat) < 200) (pySplitlines text)
    ((pySplitlines text).length + 1) 0 [] (Nat.zero_le _) (by omega)
  have h0 : 0 < (pySplitlines text).length := List.length_pos.mpr hne
  obtain ⟨tail, hres, hcov, pre, c, htail, hcend⟩ :=
    chunkLoop_cov (by omega) _ hb _ 0 [] r hr h0
  rw [List.nil_append] at hres
  refine ⟨r, hr, ?_, pre, c, by rw [hres, htail], hcend⟩
  intro j hj1 hj2
  rw [hres]
  exact hcov j hj1 hj2

theorem C3_coverage_witness :
    (pySplitlines "a\nb" ≠ [] ∧ ∀ l ∈ pySplitlines "a\nb", Nonblank l) ∧
    ∃ res, chunk_by_lines "a\nb" = some res ∧
      ChunkCoverage (pySplitlines "a\nb").length res :=
  ⟨⟨by decide, by decide⟩, C3_coverage_amended "a\nb" (by decide) (by decide)⟩

/-! ### Claim C4: the 250-line / 200-window / 30-overlap scenario -/

/-- One unfolding step of the chunking loop (used to step through concrete
runs without cascading the recursion). -/
lemma chunkLoop_succ (w o : Nat) (L : List String) (fuel i : Nat)
    (acc : List (Nat × Nat × String)) :
    chunkLoop w o L (fuel + 1) i acc =
      if i < L.length then
        if min (i + w) L.length = L.length then
          some (if pyStrip (joinSep "\n" ((L.drop i).take (min (i + w) L.length - i))) = ""
                then acc
                else acc ++ [(i + 1, min (i + w) L.length,
                  pyStrip (joinSep "\n" ((L.drop i).take (min (i + w) L.length - i))))])
        else chunkLoop w o L fuel (min (i + w) L.length - o)
          (if pyStrip (joinSep "\n" ((L.drop i).take (min (i + w) L.length - i))) = ""
           then acc
           else acc ++ [(i + 1, min (i + w) L.length,
             pyStrip (joinSep "\n" ((L.drop i).take (min (i + w) L.length - i))))])
      else some acc := rfl

/-- C4: a file of 250 non-blank lines chunked at the default window 200 and
overlap 30 yields exactly two chunks, spanning lines 1-200 and 171-250. -/
theorem C4_two_chunks (text : String) (h1 : (pySplitlines text).length = 250)
    (hb : ∀ l ∈ pySplitlines text, Nonblank l) :
    ∃ t1 t2, chunk_by_lines text = some [(1, 200, t1), (171, 250, t2)] := by
  set L := pySplitlines text with hL
  show ∃ t1 t2, chunkLoop 200 30 L (L.length + 1) 0 [] = some [(1, 200, t1), (171, 250, t2)]
  rw [h1]
  have hin1 : 0 < L.length := by omega
  have hct1 := window_nonblank L hb (by omega : (0:Nat) < 200) hin1
  have hend1 : ¬ (min (0 + 200) L.length = L.length) := by omega
  rw [chunkLoop_succ]
  rw [if_pos hin1, if_neg hct1, if_neg hend1]
  have hmin1 : min (0 + 200) L.length = 200 := by omega
  rw [hmin1]
  norm_num
  have hin2 : 170 < L.length := by omega
  have hct2 := window_nonblank L hb (by omega : (0:Nat) < 200) hin2
  have hend2 : min (170 + 200) L.length = L.length := by omega
  rw [show (250 : Nat) = 249 + 1 from rfl, chunkLoop_succ]
  rw [if_pos hin2, if_neg hct2, if_pos hend2]
  have hmin2 : min (170 + 200) L.length = 250 := by omega
  rw [hmin2]
  norm_num

/-- A concrete file of 250 non-blank lines for the C4 witness. -/
def text250 : String := joinSep "\n" (List.replicate 250 "a")

set_option maxRecDepth 40000 in
theorem C4_two_chunks_witness :
    ((pySplitlines text250).length = 250 ∧ ∀ l ∈ pySplitlines text250, Nonblank l) ∧
    ∃ t1 t2, chunk_by_lines text250 = some [(1, 200, t1), (171, 250, t2)] :=
  ⟨⟨by decide, by decide⟩, C4_two_chunks text250 (by decide) (by decide)⟩

/-! ### Deduplication lemmas and claim C7 -/

lemma firstOcc_filter_comm (c : String) :
    ∀ l : List String,
      firstOcc (l.filter (fun y => y ≠ c)) = (firstOcc l).filter (fun y => y ≠ c) := by
  intro l
  induction l with
  | nil => rfl
  | cons x xs ih =>
    by_cases hxc : x = c
    · subst hxc
      rw [List.filter_cons_of_neg (by simp), firstOcc, List.filter_cons_of_neg (by simp),
        ih, List.filter_filter]
      exact (List.filter_congr (fun a _ => by rw [Bool.and_self])).symm
    · rw [List.filter_cons_of_pos (by simp [hxc]), firstOcc, firstOcc,
        List.filter_cons_of_pos (by simp [hxc]), ih, List.filter_filter, List.filter_filter]
      exact congrArg _ (List.filter_congr (fun a _ => by rw [Bool.and_comm]))

lemma dedupeAux_eq_firstOcc :
    ∀ (l seen u : List String),
      dedupeAux l seen u = u ++ firstOcc (l.filter (fun x => x ∉ seen)) := by
  intro l
  induction l with
  | nil => intro seen u; simp [dedupeAux, firstOcc]
  | cons c rest ih =>
    intro seen u
    by_cases hc : c ∈ seen
    · rw [dedupeAux, if_pos hc, ih, List.filter_cons_of_neg (by simp [hc])]
    · rw [dedupeAux, if_neg hc, ih, List.filter_cons_of_pos (by simp [hc]), firstOcc]
      have hfe : rest.filter (fun x => x ∉ c :: seen)
          = (rest.filter (fun x => x ∉ seen)).filter (fun y => y ≠ c) := by
        rw [List.filter_filter]
        exact List.filter_congr (fun a _ => by
          simp [List.mem_cons, not_or, Bool.and_comm])
      rw [hfe, firstOcc_filter_comm]
      simp

lemma firstOcc_nodup : ∀ l : List String, (firstOcc l).Nodup := by
  intro l
  induction l with
  | nil => exact List.nodup_nil
  | cons x xs ih =>
    rw [firstOcc]
    refine List.nodup_cons.mpr ⟨?_, ih.filter _⟩
    intro hx
    have := (List.mem_filter.mp hx).2
    simp at this

lemma firstOcc_mem (s : String) : ∀ l : List String, s ∈ firstOcc l ↔ s ∈ l := by
  intro l
  induction l with
  | nil => exact Iff.rfl
  | cons x xs ih =>
    rw [firstOcc]
    constructor
    · intro h
      rcases List.mem_cons.mp h with h | h
      · exact h ▸ List.mem_cons_self _ _
      · exact List.mem_cons_of_mem _ (ih.mp (List.mem_filter.mp h).1)
    · intro h
      rcases List.mem_cons.mp h with h | h
      · exact h ▸ List.mem_cons_self _ _
      · by_cases hsx : s = x
        · exact hsx ▸ List.mem_cons_self _ _
        · exact List.mem_cons_of_mem _
            (List.mem_filter.mpr ⟨ih.mpr h, by simp [hsx]⟩)

lemma firstOcc_sublist : ∀ l : List String, List.Sublist (firstOcc l) l := by
  intro l
  induction l with
  | nil => exact List.Sublist.refl _
  | cons x xs ih =>
    rw [firstOcc]
    exact List.Sublist.cons₂ _ ((List.filter_sublist _).trans ih)

/-- C7: `format_citations` performs stable first-occurrence deduplication:
its output equals the first-occurrence dedup of the display strings, has no
duplicates, contains exactly the display strings of the input, and is a
subsequence of them (so output order is input order, not a sort). -/
theorem C7_citations_dedup (relpath : String → String → String)
    (chunks : List ChunkMeta) (repo_root : String) :
    format_citations relpath chunks repo_root
        = firstOcc (chunks.map (displayCitation relpath repo_root)) ∧
    (format_citations relpath chunks repo_root).Nodup ∧
    (∀ s, s ∈ format_citations relpath chunks repo_root ↔
      s ∈ chunks.map (displayCitation relpath repo_root)) ∧
    List.Sublist (format_citations relpath chunks repo_root)
      (chunks.map (displayCitation relpath repo_root)) := by
  have he : format_citations relpath chunks repo_root
      = firstOcc (chunks.map (displayCitation relpath repo_root)) := by
    unfold format_citations
    rw [dedupeAux_eq_firstOcc]
    rw [List.filter_eq_self.mpr (fun a _ => by simp)]
    exact List.nil_append _
  refine ⟨he, ?_, ?_, ?_⟩
  · rw [he]; exact firstOcc_nodup _
  · intro s; rw [he]; exact firstOcc_mem s _
  · rw [he]; exact firstOcc_sublist _

/-! ### File-selector lemmas and claims C8, C10 -/

lemma firstMatches_iff (pat : List Char) :
    ∀ l : List Char, firstMatches pat l = true ↔ ∃ t, l = pat ++ t := by
  induction pat with
  | nil =>
    intro l
    simp [firstMatches]
  | cons a as ih =>
    intro l
    cases l with
    | nil =>
      simp [firstMatches]
    | cons b bs =>
      rw [firstMatches, Bool.and_eq_true, beq_iff_eq, ih bs]
      constructor
      · rintro ⟨hab, t, ht⟩
        exact ⟨t, by rw [ht, hab]; rfl⟩
      · rintro ⟨t, ht⟩
        rw [List.cons_append] at ht
        exact ⟨(List.cons.injEq _ _ _ _ ▸ ht).1.symm ▸ rfl,
          t, (List.cons.injEq _ _ _ _ ▸ ht).2⟩

lemma pyEndsWith_iff (s suf : String) :
    pyEndsWith s suf = true ↔ ∃ a, s.data = a ++ suf.data := by
  rw [pyEndsWith, firstMatches_iff]
  constructor
  · rintro ⟨t, ht⟩
    refine ⟨t.reverse, ?_⟩
    have := congrArg List.reverse ht
    rw [List.reverse_reverse, List.reverse_append, List.reverse_reverse] at this
    exact this
  · rintro ⟨a, ha⟩
    exact ⟨a.reverse, by rw [ha, List.reverse_append]⟩

/-- The ignore extensions are all lowercase: lowering a name preserves an
ignored-extension suffix. -/
lemma pyEndsWith_lower {f ext : String} (hm : ext ∈ IGNORE_EXTENSIONS)
    (h : pyEndsWith f ext = true) : pyEndsWith (pyLower f) ext = true := by
  obtain ⟨a, ha⟩ := (pyEndsWith_iff f ext).mp h
  refine (pyEndsWith_iff _ ext).mpr ⟨a.map Char.toLower, ?_⟩
  have hfix : ext.data.map Char.toLower = ext.data := by
    fin_cases hm <;> decide
  show (f.data.map Char.toLower) = a.map Char.toLower ++ ext.data
  rw [ha, List.map_append, hfix]

lemma should_ignore_false_folder {n : String} (h : should_ignore n = false) :
    n ∉ IGNORE_FOLDERS := by
  intro hmem
  rw [should_ignore, if_pos hmem] at h
  cases h

lemma should_ignore_false_ext {n : String} (h : should_ignore n = false) :
    ∀ ext ∈ IGNORE_EXTENSIONS, pyEndsWith (pyLower n) ext = false := by
  intro ext hext
  by_cases hmem : n ∈ IGNORE_FOLDERS
  · rw [should_ignore, if_pos hmem] at h; cases h
  · rw [should_ignore, if_neg hmem] at h
    exact Bool.eq_false_iff.mpr (List.any_eq_false.mp h ext hext)

lemma should_ignore_false_ext_orig {n : String} (h : should_ignore n = false) :
    ∀ ext ∈ IGNORE_EXTENSIONS, pyEndsWith n ext = false := by
  intro ext hext
  by_cases he : pyEndsWith n ext = true
  · have := pyEndsWith_lower hext he
    rw [should_ignore_false_ext h ext hext] at this
    cases this
  · exact Bool.not_eq_true _ ▸ he

/-- Soundness of the tree walk: every returned path is the current root
extended by a chain of non-ignored directory names and a non-ignored file
name. -/
lemma collectFrom_sound :
    ∀ (path : String) (ts : List FSTree) (p : String), p ∈ collectFrom path ts →
      ∃ ds f, p = joinPath path ds ++ "/" ++ f ∧
        (∀ d ∈ ds, should_ignore d = false) ∧ should_ignore f = false := by
  intro path ts
  induction path, ts using collectFrom.induct with
  | case1 path =>
    intro p hp
    rw [collectFrom] at hp
    cases hp
  | case2 path name size rest ih =>
    intro p hp
    rw [collectFrom] at hp
    rcases List.mem_append.mp hp with hp | hp
    · by_cases hig : should_ignore name = true
      · rw [if_pos hig] at hp; cases hp
      · rw [if_neg hig] at hp
        by_cases hsz : size > 2000000
        · rw [if_pos hsz] at hp; cases hp
        · rw [if_neg hsz] at hp
          refine ⟨[], name, List.mem_singleton.mp hp, ?_, Bool.not_eq_true _ ▸ hig⟩
          intro d hd
          cases hd
    · exact ih p hp
  | case3 path name children rest ih1 ih2 =>
    intro p hp
    rw [collectFrom] at hp
    rcases List.mem_append.mp hp with hp | hp
    · by_cases hig : should_ignore name = true
      · rw [if_pos hig] at hp; cases hp
      · rw [if_neg hig] at hp
        obtain ⟨ds, f, hpf, hds, hf⟩ := ih1 p hp
        refine ⟨name :: ds, f, hpf, ?_, hf⟩
        intro d hd
        rcases List.mem_cons.mp hd with hd | hd
        · exact hd ▸ (Bool.not_eq_true _ ▸ hig)
        · exact hds d hd
    · exact ih2 p hp

/-- C8: the file selector never returns a path inside an ignored directory
nor a file with an ignored extension, and ignored subtrees are pruned before
descent (the result does not depend on their contents). -/
theorem C8_selector_sound :
    (∀ (path : String) (ts : List FSTree) (p : String), p ∈ collect_code_files path ts →
      ∃ ds f, p = joinPath path ds ++ "/" ++ f ∧
        (∀ d ∈ ds, d ∉ IGNORE_FOLDERS) ∧
        (∀ ext ∈ IGNORE_EXTENSIONS, pyEndsWith f ext = false) ∧
        (∀ ext ∈ IGNORE_EXTENSIONS, pyEndsWith (pyLower f) ext = false) ∧
        (∀ d ∈ ds, should_ignore d = false) ∧ should_ignore f = false) ∧
    (∀ (path name : String) (cs cs' rest : List FSTree), should_ignore name = true →
      collectFrom path (.dir name cs :: rest) = collectFrom path (.dir name cs' :: rest)) := by
  constructor
  · intro path ts p hp
    obtain ⟨ds, f, hpf, hds, hf⟩ := collectFrom_sound path ts p hp
    exact ⟨ds, f, hpf, fun d hd => should_ignore_false_folder (hds d hd),
      should_ignore_false_ext_orig hf, should_ignore_false_ext hf, hds, hf⟩
  · intro path name cs cs' rest h
    rw [collectFrom, collectFrom, if_pos h, if_pos h]

theorem C8_selector_sound_witness :
    ("repo/src/a.py" ∈ collect_code_files "repo"
      [.dir "src" [.file "a.py" 10], .dir "node_modules" [.file "x.js" 1]]) ∧
    ∃ ds f, "repo/src/a.py" = joinPath "repo" ds ++ "/" ++ f ∧
      (∀ d ∈ ds, d ∉ IGNORE_FOLDERS) ∧
      (∀ ext ∈ IGNORE_EXTENSIONS, pyEndsWith f ext = false) ∧
      (∀ ext ∈ IGNORE_EXTENSIONS, pyEndsWith (pyLower f) ext = false) ∧
      (∀ d ∈ ds, should_ignore d = false) ∧ should_ignore f = false :=
  ⟨by simp +decide [collect_code_files, collectFrom],
   C8_selector_sound.1 "repo"
     [.dir "src" [.file "a.py" 10], .dir "node_modules" [.file "x.js" 1]] "repo/src/a.py"
     (by simp +decide [collect_code_files, collectFrom])⟩

/-- C10: one ignore predicate serves both directory and file names — a file
named like an ignored folder is excluded, a directory named with an ignored
extension is pruned, and extension matching lowercases the name first. -/
theorem C10_shared_ignore_predicate :
    should_ignore "out" = true ∧ should_ignore "build" = true ∧
    should_ignore "public" = true ∧
    (∀ (path : String) (size : Nat) (rest : List FSTree),
      collectFrom path (.file "out" size :: rest) = collectFrom path rest) ∧
    (∀ (path : String) (cs rest : List FSTree),
      collectFrom path (.dir "archive.zip" cs :: rest) = collectFrom path rest) ∧
    (∀ (name ext : String), ext ∈ IGNORE_EXTENSIONS →
      pyEndsWith (pyLower name) ext = true → should_ignore name = true) ∧
    should_ignore "LOGO.PNG" = true := by
  refine ⟨by decide, by decide, by decide, ?_, ?_, ?_, by decide⟩
  · intro path size rest
    rw [collectFrom, if_pos (by decide : should_ignore "out" = true)]
    rfl
  · intro path cs rest
    rw [collectFrom, if_pos (by decide : should_ignore "archive.zip" = true)]
    rfl
  · intro name ext hext hend
    rw [should_ignore]
    by_cases hmem : name ∈ IGNORE_FOLDERS
    · rw [if_pos hmem]
    · rw [if_neg hmem]
      exact List.any_eq_true.mpr ⟨ext, hext, hend⟩

theorem C10_shared_ignore_predicate_witness :
    (".zip" ∈ IGNORE_EXTENSIONS ∧ pyEndsWith (pyLower "BACKUP.ZIP") ".zip" = true) ∧
    should_ignore "BACKUP.ZIP" = true :=
  ⟨⟨by decide, by decide⟩,
   C10_shared_ignore_predicate.2.2.2.2.2.1 "BACKUP.ZIP" ".zip" (by decide) (by decide)⟩

/-! ### Build / search / retrieve lemmas and claims C1, C5, C6 -/

/-- The `metas`/`texts` accumulators of the build stay positionally aligned:
the texts are exactly the `text` fields of the metas, in order. -/
lemma buildCorpus_aligned (files : List (String × String)) :
    (buildCorpus files).2 = (buildCorpus files).1.map (fun m => m.text) := by
  suffices h : ∀ (fs : List (String × String)) (acc : List ChunkMeta × List String),
      acc.2 = acc.1.map (fun m => m.text) →
      (fs.foldl buildStep acc).2 = (fs.foldl buildStep acc).1.map (fun m => m.text) by
    exact h files ([], []) rfl
  intro fs
  induction fs with
  | nil => intro acc hacc; exact hacc
  | cons f rest ih =>
    intro acc hacc
    rw [List.foldl_cons]
    refine ih _ ?_
    unfold buildStep
    by_cases hskip : pyStrip (pyTake 200000 f.2) = ""
    · rw [if_pos hskip]; exact hacc
    · rw [if_neg hskip]
      simp only [List.map_append, List.map_map]
      rw [hacc]
      rfl

/-- Every non-sentinel id returned by a search is a valid position in the
index's vector list. -/
lemma faissSearch_valid_lt {E : Type} (sim : E → E → Int) (idx : FaissIndex E)
    (qv : E) (k : Nat) :
    ∀ id ∈ faissSearch sim idx qv k, id ≠ -1 → id.toNat < idx.vectors.length := by
  intro id hid hne
  unfold faissSearch at hid
  rcases List.mem_append.mp hid with hid | hid
  · obtain ⟨m, hm, hme⟩ := List.mem_map.mp hid
    have hmo : m ∈ List.insertionSort
        (fun a b => scoreAt sim idx.vectors qv b ≤ scoreAt sim idx.vectors qv a)
        (List.range idx.vectors.length) := List.take_subset _ _ hm
    have hmr : m ∈ List.range idx.vectors.length :=
      (List.perm_insertionSort _ _).subset hmo
    rw [← hme]
    exact List.mem_range.mp hmr
  · exact absurd (List.eq_of_mem_replicate hid) hne

/-- The non-sentinel part of a search result is the top `min k ntotal`
positions; the sentinels are exactly the padding. -/
lemma faissSearch_filter {E : Type} (sim : E → E → Int) (idx : FaissIndex E)
    (qv : E) (k : Nat) :
    (faissSearch sim idx qv k).filter (fun i => i ≠ -1)
      = ((List.insertionSort
          (fun a b => scoreAt sim idx.vectors qv b ≤ scoreAt sim idx.vectors qv a)
          (List.range idx.vectors.length)).take (min k idx.vectors.length)).map Int.ofNat ∧
    ((faissSearch sim idx qv k).filter (fun i => i ≠ -1)).length
      = min k idx.vectors.length := by
  have h1 : (faissSearch sim idx qv k).filter (fun i => i ≠ -1)
      = ((List.insertionSort
          (fun a b => scoreAt sim idx.vectors qv b ≤ scoreAt sim idx.vectors qv a)
          (List.range idx.vectors.length)).take (min k idx.vectors.length)).map Int.ofNat := by
    unfold faissSearch
    rw [List.filter_append]
    rw [List.filter_eq_self.mpr, List.filter_eq_nil_iff.mpr, List.append_nil]
    · intro a ha
      rw [List.eq_of_mem_replicate ha]
      decide
    · intro a ha
      obtain ⟨m, _, hme⟩ := List.mem_map.mp ha
      simp only [ne_eq, decide_eq_true_eq]
      rw [← hme]
      intro hc
      have hge : (0 : Int) ≤ Int.ofNat m := Int.ofNat_nonneg m
      omega
  refine ⟨h1, ?_⟩
  rw [h1, List.length_map, List.length_take, List.length_insertionSort,
    List.length_range]
  omega

/-- The id-walking loop of `retrieve` is filtering out sentinels followed by
positional lookup. -/
lemma retrieve_foldl (metas : List ChunkMeta) :
    ∀ (ids : List Int) (acc : List ChunkMeta),
      ids.foldl (fun results i => if i = -1 then results
                                  else results ++ [metas.getD i.toNat defaultMeta]) acc
        = acc ++ (ids.filter (fun i => i ≠ -1)).map
            (fun i => metas.getD i.toNat defaultMeta) := by
  intro ids
  induction ids with
  | nil => intro acc; simp
  | cons i rest ih =>
    intro acc
    rw [List.foldl_cons]
    by_cases hi : i = -1
    · rw [if_pos hi, ih, List.filter_cons_of_neg (by simp [hi])]
    · rw [if_neg hi, ih, List.filter_cons_of_pos (by simp [hi])]
      simp

/-- A successful build returns exactly the embeddings of the metadata texts,
in order. -/
lemma build_ok_vectors {E : Type} (embed : String → E)
    (files : List (String × String)) (idx : FaissIndex E) (metas : List ChunkMeta)
    (h : build_faiss_index embed files = .ok (idx, metas)) :
    idx.vectors = metas.map (fun m => embed m.text) := by
  unfold build_faiss_index at h
  by_cases hemp : (buildCorpus files).2 = []
  · rw [if_pos hemp] at h; cases h
  · rw [if_neg hemp] at h
    have hinj := (Except.ok.injEq _ _).mp h
    have hidx : idx = FaissIndex.mk ((buildCorpus files).2.map embed) :=
      congrArg Prod.fst hinj |>.symm
    have hm : metas = (buildCorpus files).1 := congrArg Prod.snd hinj |>.symm
    rw [hidx, hm, buildCorpus_aligned, List.map_map]
    rfl

/-- C1: for every successful build, the index's vectors are exactly the
embeddings of the metadata texts, in order (positional alignment), and every
non-sentinel index returned by any search on that index is a valid position
in `metas`. -/
theorem C1_positional_alignment {E : Type} (embed : String → E)
    (files : List (String × String)) (idx : FaissIndex E) (metas : List ChunkMeta)
    (h : build_faiss_index embed files = .ok (idx, metas)) :
    idx.vectors = metas.map (fun m => embed m.text) ∧
    idx.vectors.length = metas.length ∧
    (∀ (sim : E → E → Int) (qv : E) (k : Nat),
      ∀ id ∈ faissSearch sim idx qv k, id ≠ -1 → id.toNat < metas.length) := by
  have hvec := build_ok_vectors embed files idx metas h
  refine ⟨hvec, by rw [hvec, List.length_map], ?_⟩
  intro sim qv k id hid hne
  have := faissSearch_valid_lt sim idx qv k id hid hne
  rwa [hvec, List.length_map] at this

theorem C1_positional_alignment_witness :
    (build_faiss_index (fun _ => (1 : Int)) [("a.py", "hello")]
      = .ok (⟨[1]⟩, [⟨"a.py", 1, 1, "hello"⟩])) ∧
    (FaissIndex.mk [(1 : Int)]).vectors
      = [ChunkMeta.mk "a.py" 1 1 "hello"].map (fun m => (fun _ => (1 : Int)) m.text) :=
  ⟨by rfl,
   (C1_positional_alignment (fun _ => (1 : Int)) [("a.py", "hello")]
     ⟨[1]⟩ [⟨"a.py", 1, 1, "hello"⟩] (by rfl)).1⟩

/-- C5: the build raises the empty-corpus error exactly when zero chunks are
produced across the repository; a zero-file repository raises it, a
repository whose only file is whitespace raises it, and whenever at least one
chunk is produced the build succeeds. -/
theorem C5_empty_corpus {E : Type} (embed : String → E) :
    (∀ files : List (String × String),
      (∃ msg, build_faiss_index embed files = .error msg) ↔ (buildCorpus files).2 = []) ∧
    build_faiss_index embed ([] : List (String × String)) = .error emptyCorpusMsg ∧
    build_faiss_index embed [("notes.txt", "   \n\t \n")] = .error emptyCorpusMsg ∧
    (∀ files : List (String × String), (buildCorpus files).2 ≠ [] →
      ∃ idx metas, build_faiss_index embed files = .ok (idx, metas)) := by
  refine ⟨?_, ?_, ?_, ?_⟩
  · intro files
    unfold build_faiss_index
    by_cases hemp : (buildCorpus files).2 = []
    · rw [if_pos hemp]
      exact ⟨fun _ => hemp, fun _ => ⟨emptyCorpusMsg, rfl⟩⟩
    · rw [if_neg hemp]
      constructor
      · rintro ⟨msg, hmsg⟩
        cases hmsg
      · intro habs
        exact absurd habs hemp
  · rfl
  · rfl
  · intro files hne
    unfold build_faiss_index
    rw [if_neg hne]
    exact ⟨_, _, rfl⟩

theorem C5_empty_corpus_witness :
    (buildCorpus [("e.txt", "")]).2 = [] ∧
    (∃ msg, build_faiss_index (fun _ => (0 : Int)) [("e.txt", "")] = .error msg) ∧
    ((buildCorpus [("a.py", "hello")]).2 ≠ [] ∧
      ∃ idx metas, build_faiss_index (fun _ => (0 : Int)) [("a.py", "hello")]
        = .ok (idx, metas)) :=
  ⟨by decide,
   ((C5_empty_corpus (fun _ => (0 : Int))).1 [("e.txt", "")]).mpr (by decide),
   by decide,
   (C5_empty_corpus (fun _ => (0 : Int))).2.2.2 [("a.py", "hello")] (by decide)⟩

/-- C6: on a built index, `retrieve` returns exactly `min k ntotal` chunks —
hence at most `k`, and fewer than `k` exactly when the index holds fewer than
`k` vectors — and equals the sentinel-filtered search ids mapped through
positional metadata lookup. -/
theorem C6_retrieve_topk {E : Type} (embed : String → E) (sim : E → E → Int)
    (files : List (String × String)) (idx : FaissIndex E) (metas : List ChunkMeta)
    (h : build_faiss_index embed files = .ok (idx, metas)) (q : String) (k : Nat) :
    (retrieve embed sim q idx metas k).length = min k idx.vectors.length ∧
    (retrieve embed sim q idx metas k).length ≤ k ∧
    ((retrieve embed sim q idx metas k).length < k ↔ idx.vectors.length < k) ∧
    idx.vectors.length = metas.length ∧
    retrieve embed sim q idx metas k
      = ((faissSearch sim idx (embed q) k).filter (fun i => i ≠ -1)).map
          (fun i => metas.getD i.toNat defaultMeta) := by
  have hnm : idx.vectors.length = metas.length := by
    rw [build_ok_vectors embed files idx metas h, List.length_map]
  have hfold : retrieve embed sim q idx metas k
      = ((faissSearch sim idx (embed q) k).filter (fun i => i ≠ -1)).map
          (fun i => metas.getD i.toNat defaultMeta) := by
    unfold retrieve
    rw [retrieve_foldl metas (faissSearch sim idx (embed q) k) []]
    exact List.nil_append _
  have hlen : (retrieve embed sim q idx metas k).length = min k idx.vectors.length := by
    rw [hfold, List.length_map]
    exact (faissSearch_filter sim idx (embed q) k).2
  refine ⟨hlen, by omega, by omega, hnm, hfold⟩

theorem C6_retrieve_topk_witness :
    (build_faiss_index (fun _ => (1 : Int)) [("a.py", "hello")]
      = .ok (⟨[1]⟩, [⟨"a.py", 1, 1, "hello"⟩])) ∧
    (retrieve (fun _ => (1 : Int)) (fun a b => a * b) "q" ⟨[1]⟩
      [⟨"a.py", 1, 1, "hello"⟩] 6).length = min 6 (FaissIndex.mk [(1 : Int)]).vectors.length :=
  ⟨by rfl,
   (C6_retrieve_topk (fun _ => (1 : Int)) (fun a b => a * b) [("a.py", "hello")]
     ⟨[1]⟩ [⟨"a.py", 1, 1, "hello"⟩] (by rfl) "q" 6).1⟩

/-! ### Substring lemmas and claim C9 -/

lemma hasSubChars_of_append :
    ∀ (a sub b : List Char), hasSubChars sub (a ++ sub ++ b) = true := by
  intro a
  induction a with
  | nil =>
    intro sub b
    rw [List.nil_append]
    cases hsb : sub ++ b with
    | nil =>
      rw [hasSubChars, (List.append_eq_nil.mp hsb).1]
      rfl
    | cons c rest =>
      rw [hasSubChars]
      have hf : firstMatches sub (c :: rest) = true :=
        (firstMatches_iff sub _).mpr ⟨b, hsb.symm⟩
      rw [hf]
      rfl
  | cons x xs ih =>
    intro sub b
    show hasSubChars sub (x :: (xs ++ sub ++ b)) = true
    rw [hasSubChars, ih sub b, Bool.or_true]

/-- If `sub` (whose characters are already lowercase) occurs in `q`, it
occurs in `q.lower()`. -/
lemma pyContains_lower_of_containsSub {q sub : String}
    (hfix : sub.data.map Char.toLower = sub.data) (h : ContainsSub q sub) :
    pyContains (pyLower q) sub = true := by
  obtain ⟨a, b, hab⟩ := h
  have hdata : (pyLower q).data = a.map Char.toLower ++ sub.data ++ b.map Char.toLower := by
    show q.data.map Char.toLower = _
    rw [hab, List.map_append, List.map_append, hfix]
  rw [pyContains, hdata]
  exact hasSubChars_of_append _ _ _

/-- C9 counterexample: for the concrete question "Where is the entry point?"
on a built one-chunk index, the handler's `retrieve` call site is reached
(`retrieve_called = true`), and with a detector reporting no entry files the
displayed citations are exactly the retrieval results — so retrieval is
invoked, and observably so, contradicting the claim that it is never invoked
for this query class. -/
theorem C9_entrypoint_counterexample :
    (ask_handler (fun _ => (1 : Int)) (fun a b => a * b) (fun p _ => p)
      (fun _ _ _ => "") "" "Where is the entry point?" ⟨[1]⟩
      [⟨"a.py", 1, 1, "hello"⟩] "repo" ⟨"unknown", [], [], []⟩).retrieve_called = true ∧
    (ask_handler (fun _ => (1 : Int)) (fun a b => a * b) (fun p _ => p)
      (fun _ _ _ => "") "" "Where is the entry point?" ⟨[1]⟩
      [⟨"a.py", 1, 1, "hello"⟩] "repo" ⟨"unknown", [], [], []⟩).citations
      = ["a.py (lines 1-1)"] := by
  constructor
  · rfl
  · rfl

/-- C9 (amended): for every question containing "entry point" the handler
does route to the deterministic detector and builds its answer from the
detector's output; however `retrieve` is invoked unconditionally before the
routing branch, and when the detector reports no entry files the retrieval
results are what is displayed as citations. -/
theorem C9_entrypoint_routing {E : Type} (embed : String → E) (sim : E → E → Int)
    (relpath : String → String → String)
    (llm : String → List ChunkMeta → String → String) (api_key q : String)
    (idx : FaissIndex E) (metas : List ChunkMeta) (repo_root : String)
    (info : EntryInfo) (h : ContainsSub q "entry point") :
    (ask_handler embed sim relpath llm api_key q idx metas repo_root info).used_detector
        = true ∧
    (ask_handler embed sim relpath llm api_key q idx metas repo_root info).answer
        = detectorAnswer info ∧
    (ask_handler embed sim relpath llm api_key q idx metas repo_root info).retrieve_called
        = true ∧
    (info.entry_files = [] →
      (ask_handler embed sim relpath llm api_key q idx metas repo_root info).citations
        = format_citations relpath (retrieve embed sim q idx metas 6) repo_root) := by
  have hc : pyContains (pyLower q) "entry point" = true :=
    pyContains_lower_of_containsSub (by decide) h
  have hcond : (pyContains (pyLower q) "entry point"
      || pyContains (pyLower q) "main file" || pyContains (pyLower q) "start") = true := by
    rw [hc]
    rfl
  simp only [ask_handler]
  rw [if_pos hcond]
  refine ⟨rfl, rfl, rfl, ?_⟩
  intro hef
  rw [if_pos hef]

theorem C9_entrypoint_routing_witness :
    ContainsSub "Where is the entry point?" "entry point" ∧
    (ask_handler (fun _ => (1 : Int)) (fun a b => a * b) (fun p _ => p)
      (fun _ _ _ => "") "" "Where is the entry point?" ⟨[1]⟩
      [⟨"a.py", 1, 1, "hello"⟩] "repo"
      ⟨"Streamlit", ["app.py"], ["streamlit run app.py"], []⟩).used_detector = true :=
  ⟨⟨"Where is the ".data, "?".data, by decide⟩,
   (C9_entrypoint_routing (fun _ => (1 : Int)) (fun a b => a * b) (fun p _ => p)
     (fun _ _ _ => "") "" "Where is the entry point?" ⟨[1]⟩
     [⟨"a.py", 1, 1, "hello"⟩] "repo"
     ⟨"Streamlit", ["app.py"], ["streamlit run app.py"], []⟩
     ⟨"Where is the ".data, "?".data, by decide⟩).1⟩

end RepoExplainer
